import Mathlib

/-!
# Verification of the semantic-search-cli repository

A shallow embedding, in Lean 4, of the parts of the `semantic-search-cli`
Rust program that the specification's claims are about:

* the text normalization and chunking pipeline
  (`clean_whitespace`, `chunk_markdown_content` in `src/main.rs`);
* the embedding document preparation
  (`generate_dense_embeddings`, `generate_sparse_embeddings` in `src/main.rs`);
* the vector-store layer (`store_file_metadata`, `store_embeddings`,
  `hybrid_search` in `src/qdrant_client.rs`);
* the answer synthesis response handling
  (`generate_response` in `src/ai.rs`);
* the per-file ingestion loop of `main` (`src/main.rs`).

Rust strings are modelled as `List Char`; effectful calls into external
services (the embedding models, the reranker, the Qdrant store, the HTTP
client) are modelled as explicit oracle functions returning `Except`,
and a Rust panic (`unwrap` on an `Err`/`None`) is modelled as a distinct
`RunResult.panicked` outcome where the distinction matters (the ingestion
loop).
-/

namespace SemanticSearch

/-- Rust's `char::is_whitespace`: the Unicode `White_Space` property.
The 25 code points with that property, listed explicitly. -/
def isRustWS (c : Char) : Bool :=
  c = ' ' || c = '\t' || c = '\n' || c = '\x0b' || c = '\x0c' || c = '\r' ||
  c = '\u0085' || c = ' ' || c = ' ' ||
  c = ' ' || c = ' ' || c = ' ' || c = ' ' ||
  c = ' ' || c = ' ' || c = ' ' || c = ' ' ||
  c = ' ' || c = ' ' || c = ' ' ||
  c = ' ' || c = ' ' || c = ' ' || c = ' ' ||
  c = '　'

/-- Split a character list at every occurrence of `sep`, keeping empty
pieces (the accumulator holds the current piece reversed).  Models Rust's
`str::lines` when `sep = '\n'` (the `\r` of a `\r\n` ending is removed by
the subsequent `trim`, as in the Rust pipeline). -/
def splitOnCharCore (sep : Char) : List Char → List Char → List (List Char)
  | [], acc => [acc.reverse]
  | c :: cs, acc =>
    if c = sep then acc.reverse :: splitOnCharCore sep cs []
    else splitOnCharCore sep cs (c :: acc)

/-- Split at every `sep`, keeping empty pieces. -/
def splitOnChar (sep : Char) (l : List Char) : List (List Char) :=
  splitOnCharCore sep l []

/-- Rust's `str::trim`: drop whitespace from both ends. -/
def trimWS (l : List Char) : List Char :=
  ((l.dropWhile isRustWS).reverse.dropWhile isRustWS).reverse

/-- Rust's `Vec<&str>::join(" ")`: interleave a single space between the
pieces. -/
def joinSp : List (List Char) → List Char
  | [] => []
  | [w] => w
  | w :: ws => w ++ ' ' :: joinSp ws

/-- Worker for `splitWS`: `acc` holds the current (reversed) maximal run of
non-whitespace characters. -/
def splitWSCore : List Char → List Char → List (List Char)
  | [], acc => if acc.isEmpty then [] else [acc.reverse]
  | c :: cs, acc =>
    if isRustWS c then
      if acc.isEmpty then splitWSCore cs []
      else acc.reverse :: splitWSCore cs []
    else splitWSCore cs (c :: acc)

/-- Rust's `str::split_whitespace`: the maximal runs of non-whitespace
characters, in order. -/
def splitWS (l : List Char) : List (List Char) :=
  splitWSCore l []

/-- `clean_whitespace` from `src/main.rs` lines 189-198: split into lines,
trim each line, drop empty lines, join with single spaces, then split on
whitespace and re-join with single spaces. -/
def clean_whitespace (t : List Char) : List Char :=
  joinSp (splitWS (joinSp ((((splitOnChar '\n' t).map trimWS).filter
    (fun l => !l.isEmpty)))))

/-- Worker for `splitEvery`: `acc` is the current piece reversed, `k` the
remaining capacity of the current piece, `n` the capacity of every later
piece. -/
def splitEveryCore (n : Nat) : List Char → List Char → Nat → List (List Char)
  | [], acc, _ => if acc.isEmpty then [] else [acc.reverse]
  | c :: cs, acc, 0 => acc.reverse :: splitEveryCore n cs [c] (n - 1)
  | c :: cs, acc, Nat.succ k => splitEveryCore n cs (c :: acc) k

/-- Cut a character list into consecutive pieces of at most `n` characters
(character-level fallback of the `text-splitter` crate for a word longer
than the chunk size). -/
def splitEvery (n : Nat) (l : List Char) : List (List Char) :=
  splitEveryCore n l [] n

/-- Model of the `text-splitter` crate's `MarkdownSplitter::chunks` on the
inputs this program feeds it.  `clean_whitespace` has already collapsed the
document to one line of single-space-separated words, so the splitter's
semantic levels collapse to word boundaries: it greedily packs consecutive
words (separated by the original single spaces) into chunks of at most `n`
characters, and falls back to character-level pieces for a word longer than
`n`.  `cur` is the chunk being built. -/
def greedyChunks (n : Nat) : List (List Char) → List Char → List (List Char)
  | [], cur => if cur.isEmpty then [] else [cur]
  | w :: ws, cur =>
    if cur.isEmpty then
      if w.length ≤ n then greedyChunks n ws w
      else splitEvery n w ++ greedyChunks n ws []
    else if cur.length + 1 + w.length ≤ n then greedyChunks n ws (cur ++ ' ' :: w)
    else
      cur ::
        (if w.length ≤ n then greedyChunks n ws w
         else splitEvery n w ++ greedyChunks n ws [])

/-- `chunk_markdown_content` from `src/main.rs` lines 200-207: clean the
whitespace, then split the cleaned content with a `MarkdownSplitter` of the
given chunk size. -/
def chunk_markdown_content (content : List Char) (chunk_size : Nat) :
    List (List Char) :=
  greedyChunks chunk_size (splitWS (clean_whitespace content)) []

/-- The non-whitespace content of a text: its characters with every
whitespace character removed. -/
def nonWS (l : List Char) : List Char :=
  l.filter (fun c => !isRustWS c)

/-- `chunk_markdown_content` lifted to Lean `String`s (the ingestion loop
passes the converted markdown `String` and receives the chunk `String`s). -/
def chunkMarkdownContentS (content : String) (chunk_size : Nat) : List String :=
  (chunk_markdown_content content.data chunk_size).map (fun l => String.mk l)

/-! ## The vector-store layer (`src/qdrant_client.rs`)

External calls (the embedding models, the reranker, the Qdrant server) are
modelled as oracle functions returning `Except String α`, matching the
`Result<_, Box<dyn Error>>` signatures of the Rust code.  The `md5` crate
is modelled as an uninterpreted parameter `md5hex : String → String`
standing for `format!("{:x}", md5::compute(_))`; every property proved
about it holds for any instantiation. -/

/-- `FileMetadata` from `src/qdrant_client.rs` lines 14-22. -/
structure FileMetadata where
  file_path : String
  file_name : String
  file_size : Nat
  modified_time : Nat
  content_hash : String
  markdown_content : Option String
deriving Repr, DecidableEq

/-- A value stored in a Qdrant point payload (the program stores strings
and numbers). -/
inductive PayloadValue where
  | str (s : String)
  | num (x : Float)
deriving Repr

/-- `payload.get(key).and_then(|v| v.as_str())`: look a key up in a payload
and keep the value only when it is a string kind. -/
def payloadGetStr (payload : List (String × PayloadValue)) (key : String) :
    Option String :=
  match payload.find? (fun p => p.fst = key) with
  | some (_, PayloadValue.str s) => some s
  | _ => none

/-- Qdrant upsert semantics on a collection keyed by point id: replace the
point when the id is already present, append it otherwise. -/
def upsertPoint {α : Type} (ps : List (String × α)) (k : String) (v : α) :
    List (String × α) :=
  if ps.any (fun p => p.fst = k) then
    ps.map (fun p => if p.fst = k then (k, v) else p)
  else ps ++ [(k, v)]

/-- Number of points with a given id in a collection. -/
def countKey {α : Type} (k : String) (ps : List (String × α)) : Nat :=
  (ps.filter (fun p => p.fst = k)).length

/-- The point stored under a given id, when present. -/
def lookupKey {α : Type} (k : String) (ps : List (String × α)) : Option α :=
  (ps.find? (fun p => p.fst = k)).map (fun p => p.snd)

/-- `store_file_metadata` from `src/qdrant_client.rs` lines 107-149: the
point id is the md5 hex digest of the file path alone; the metadata record
is upserted into the `files` collection under that id, and the id is
returned.  The state-update below is the effect of a successful
`upsert_points` call; the ingestion loop models the call's possible
failure separately. -/
def store_file_metadata (md5hex : String → String)
    (files : List (String × FileMetadata))
    (file_path file_name : String) (file_size modified_time : Nat)
    (content_hash : String) (markdown_content : Option String) :
    String × List (String × FileMetadata) :=
  let file_id := md5hex file_path
  let metadata : FileMetadata :=
    { file_path := file_path, file_name := file_name, file_size := file_size,
      modified_time := modified_time, content_hash := content_hash,
      markdown_content := markdown_content }
  (file_id, upsertPoint files file_id metadata)

/-- `fastembed::SparseEmbedding`: parallel index and value lists. -/
structure SparseEmbedding where
  indices : List Nat
  values : List Float
deriving Repr

/-- A point of the `file_embeddings` collection as stored by
`store_embeddings` (`src/qdrant_client.rs` lines 151-195): the two named
vectors plus the payload fields `file_id`, `chunk_index`, `chunk_content`.
The point id is a fresh UUIDv4. -/
structure ChunkRecord where
  dense : List Float
  sparse : SparseEmbedding
  file_id : String
  chunk_index : Int
  chunk_content : String
deriving Repr

/-- `store_embeddings`: every call creates a point under a fresh random
UUID, so the chunk collection only ever grows — modelled as an append.
(A transport error from `upsert_points` is printed and swallowed, so the
function always returns `Ok(())`; the append models the successful call.) -/
def store_embeddings (st : List ChunkRecord) (file_id : String)
    (chunk : String) (chunk_index : Int) (dense_embedding : List Float)
    (sparse_embedding : SparseEmbedding) : List ChunkRecord :=
  st ++ [{ dense := dense_embedding, sparse := sparse_embedding,
           file_id := file_id, chunk_index := chunk_index,
           chunk_content := chunk }]

/-- The payload of a stored chunk point, as the Qdrant server would return
it (`chunk_index` is stored as a number, `as f64`). -/
def chunkPayload (r : ChunkRecord) : List (String × PayloadValue) :=
  [("file_id", PayloadValue.str r.file_id),
   ("chunk_index", PayloadValue.num (Float.ofInt r.chunk_index)),
   ("chunk_content", PayloadValue.str r.chunk_content)]

/-- `SearchResult` from `src/qdrant_client.rs` lines 31-38. -/
structure SearchResult where
  file_path : String
  file_name : String
  chunk_content : String
  chunk_index : Int
  similarity_score : Float
deriving Repr

/-- A point returned by the Qdrant `query` endpoint: its payload (the only
part `hybrid_search` reads). -/
structure ScoredPoint where
  payload : List (String × PayloadValue)
deriving Repr

/-- A `fastembed` rerank result: index of the document in the input list,
the document text (requested via `return_documents = true`), and the
relevance score. -/
structure RerankResult where
  index : Nat
  document : Option String
  score : Float
deriving Repr

/-- The fused query request built by `hybrid_search`
(`src/qdrant_client.rs` lines 235-254): a sparse prefetch and a dense
prefetch with their limits, RRF fusion, the fused limit, and payload
retrieval. -/
structure QueryPointsRequest where
  sparseQuery : SparseEmbedding
  sparseLimit : Nat
  denseQuery : List Float
  denseLimit : Nat
  fusionRrf : Bool
  limit : Nat
  withPayload : Bool
deriving Repr

/-- The concrete request `hybrid_search` sends: 25 candidates from each
prefetch, RRF fusion, 50 fused candidates, with payload. -/
def queryPointsRequest (sq : SparseEmbedding) (dq : List Float) :
    QueryPointsRequest :=
  { sparseQuery := sq, sparseLimit := 25, denseQuery := dq, denseLimit := 25,
    fusionRrf := true, limit := 50, withPayload := true }

/-- The external services `hybrid_search` calls, as oracles. -/
structure SearchOracles where
  sparseEmbed : List String → Except String (List SparseEmbedding)
  denseEmbed : List String → Except String (List (List Float))
  storeQuery : QueryPointsRequest → Except String (List ScoredPoint)
  rerank : String → List String → Except String (List RerankResult)

/-- `hybrid_search` from `src/qdrant_client.rs` lines 197-295, in source
order: embed the raw query sparsely and densely (each `?`), unwrap the
first embedding of each batch (panic when the batch is empty), send the
fused prefetch query (`?`), extract the `chunk_content` payload strings,
rerank them (`?`), take the top 10, and build the `SearchResult`s with
empty `file_path`/`file_name` and `chunk_index` 0. -/
def hybrid_search (o : SearchOracles) (query : String) :
    Except String (List SearchResult) :=
  match o.sparseEmbed [query] with
  | Except.error e => Except.error e
  | Except.ok sparse_query_embeddings =>
    match o.denseEmbed [query] with
    | Except.error e => Except.error e
    | Except.ok dense_query_embeddings =>
      match sparse_query_embeddings.head? with
      | none => Except.error "panicked: called Option::unwrap() on a None value"
      | some sparse_query_embedding =>
        match dense_query_embeddings.head? with
        | none => Except.error "panicked: called Option::unwrap() on a None value"
        | some dense_query_embedding =>
          match o.storeQuery
              (queryPointsRequest sparse_query_embedding dense_query_embedding) with
          | Except.error e => Except.error e
          | Except.ok vector_results =>
            let documents := vector_results.filterMap
              (fun p => payloadGetStr p.payload "chunk_content")
            match o.rerank query documents with
            | Except.error e => Except.error e
            | Except.ok reranked_results =>
              Except.ok ((reranked_results.take 10).map (fun r =>
                { file_path := "", file_name := "",
                  chunk_content := r.document.getD "",
                  chunk_index := 0,
                  similarity_score := r.score }))

/-! ## Embedding document preparation (`src/main.rs` lines 209-237) -/

/-- `generate_dense_embeddings`: prefix every chunk with `"passage: "` and
hand the batch to the dense model. -/
def generate_dense_embeddings
    (embed : List String → Except String (List (List Float)))
    (chunks : List String) : Except String (List (List Float)) :=
  embed (chunks.map (fun chunk => "passage: " ++ chunk))

/-- `generate_sparse_embeddings`: prefix every chunk with `"passage: "` and
hand the batch to the sparse model. -/
def generate_sparse_embeddings
    (embed : List String → Except String (List SparseEmbedding))
    (chunks : List String) : Except String (List SparseEmbedding) :=
  embed (chunks.map (fun chunk => "passage: " ++ chunk))

/-! ## The per-file ingestion loop (`src/main.rs` lines 441-545) -/

/-- One discovered file, with the outcome of `convert_file_to_markdown`
for it (the external converter either yields the markdown text or fails). -/
structure FileJob where
  path : String
  name : String
  size : Nat
  mtime : Nat
  conversion : Except String String

/-- The two Qdrant collections the ingestion run writes. -/
structure Stores where
  files : List (String × FileMetadata)
  chunks : List ChunkRecord

/-- External-call outcomes during ingestion: the `files` collection upsert
for a given file id, and the two embedding models. -/
structure IngestOracles where
  metaUpsert : String → Except String Unit
  denseEmbed : List String → Except String (List (List Float))
  sparseEmbed : List String → Except String (List SparseEmbedding)

/-- Outcome of an ingestion run: either the loop finishes and `main`
reports completion, or a `.unwrap()` panics and the process dies with the
collections in the state they had reached. -/
inductive RunResult where
  | completed (st : Stores)
  | panicked (msg : String) (st : Stores)

/-- The storage loop of `src/main.rs` lines 529-541: store each chunk with
its index (the dense/sparse/chunk triples are paired positionally, as the
enumerate-and-index loop does once the length check has passed). -/
def storeChunkLoop (file_id : String) (st : List ChunkRecord) :
    List (String × List Float × SparseEmbedding) → Int → List ChunkRecord
  | [], _ => st
  | (chunk, dense_embedding, sparse_embedding) :: rest, i =>
    storeChunkLoop file_id
      (store_embeddings st file_id chunk i dense_embedding sparse_embedding)
      rest (i + 1)

/-- The per-file ingestion loop of `main` (`src/main.rs` lines 441-545).
Per file, in source order: a conversion failure prints a warning and
continues with the next file; the metadata upsert failure prints an error
and continues; the content is chunked with chunk size 1000; the dense and
sparse embedding results are `.unwrap()`ed — an `Err` PANICS and aborts
the whole run; a dense/sparse length mismatch prints an error and
continues; otherwise every chunk is stored and the loop moves on. -/
def processFiles (md5hex : String → String) (o : IngestOracles) :
    List FileJob → Stores → RunResult
  | [], st => RunResult.completed st
  | job :: rest, st =>
    match job.conversion with
    | Except.error _ => processFiles md5hex o rest st
    | Except.ok markdown_content =>
      let content_hash := md5hex markdown_content
      let upserted := store_file_metadata md5hex st.files job.path job.name
        job.size job.mtime content_hash (some markdown_content)
      match o.metaUpsert upserted.fst with
      | Except.error _ => processFiles md5hex o rest st
      | Except.ok _ =>
        let st1 : Stores := { st with files := upserted.snd }
        let chunks := chunkMarkdownContentS markdown_content 1000
        match generate_dense_embeddings o.denseEmbed chunks with
        | Except.error e => RunResult.panicked e st1
        | Except.ok dense_embeddings =>
          match generate_sparse_embeddings o.sparseEmbed chunks with
          | Except.error e => RunResult.panicked e st1
          | Except.ok sparse_embeddings =>
            if dense_embeddings.length ≠ sparse_embeddings.length then
              processFiles md5hex o rest st1
            else
              let st2 : Stores := { st1 with
                chunks := storeChunkLoop upserted.fst st1.chunks
                  (chunks.zip (dense_embeddings.zip sparse_embeddings)) 0 }
              processFiles md5hex o rest st2

/-! ## Answer synthesis (`src/ai.rs`) -/

/-- `ResponseMessage` from `src/ai.rs` lines 30-34: the deserialized
completion message; a JSON `null` (or absent) content is `none`. -/
structure ResponseMessage where
  role : String
  content : Option String
deriving Repr

/-- `Choice` from `src/ai.rs` lines 24-28. -/
structure Choice where
  message : ResponseMessage
  finish_reason : String
deriving Repr

/-- `Usage` from `src/ai.rs` lines 36-41. -/
structure Usage where
  prompt_tokens : Int
  completion_tokens : Int
  total_tokens : Int
deriving Repr

/-- `ChatCompletionResponse` from `src/ai.rs` lines 18-22. -/
structure ChatCompletionResponse where
  choices : List Choice
  usage : Option Usage
deriving Repr

/-- The response handling of `generate_response` (`src/ai.rs` lines
119-129), after a successful HTTP round trip and deserialization: take the
first (top-ranked) choice; return its content when present; when the
content is absent report the truncation error naming the finish reason;
with no choices at all report a different error. -/
def generate_response_handle (chat_response : ChatCompletionResponse) :
    Except String String :=
  match chat_response.choices.head? with
  | some choice =>
    match choice.message.content with
    | some content => Except.ok content
    | none => Except.error
        ("Response was truncated (finish_reason: " ++ choice.finish_reason ++
         "). Try increasing max_tokens or reducing the input size.")
  | none => Except.error "No choices in response"

/-! ## Concrete instances used to settle the claims -/

/-- A concrete stand-in instantiation of the uninterpreted md5 digest
parameter, used for closed runs.  (Every property proved about an
`md5hex` parameter holds for any instantiation, this one included.) -/
def md5Stub : String → String := fun s => "md5:" ++ s

/-- A chunk collection holding one chunk, stored by `store_embeddings`
for the file `/data/report.pdf` at chunk position 3. -/
def c1StoredChunks : List ChunkRecord :=
  store_embeddings [] (md5Stub "/data/report.pdf") "hello world" 3 [0.5]
    { indices := [1], values := [0.5] }

/-- The `files`-collection record of the file the stored chunk of
`c1StoredChunks` originates from. -/
def c1FileRecord : FileMetadata :=
  { file_path := "/data/report.pdf", file_name := "report.pdf",
    file_size := 2048, modified_time := 100, content_hash := "h",
    markdown_content := some "hello world" }

/-- Well-behaved external services over the one-chunk store: the store
returns the stored chunk's payload, the reranker scores every candidate
1.0 and returns its text. -/
def c1Oracles : SearchOracles :=
  { sparseEmbed := fun _ => Except.ok [{ indices := [], values := [] }],
    denseEmbed := fun _ => Except.ok [[0.0]],
    storeQuery := fun _ =>
      Except.ok (c1StoredChunks.map (fun r => { payload := chunkPayload r })),
    rerank := fun _ docs =>
      Except.ok (docs.map (fun d => { index := 0, document := some d,
                                      score := 1.0 })) }

/-- The `SearchResult` `hybrid_search` actually returns over `c1Oracles`. -/
def c1Returned : SearchResult :=
  { file_path := "", file_name := "", chunk_content := "hello world",
    chunk_index := 0, similarity_score := 1.0 }

/-- A spy dense-embedding model that reports the exact texts submitted to
it (joined with a newline, which no submitted text contains) as its error
value. -/
def embedTextSpyDense : List String → Except String (List (List Float)) :=
  fun ts => Except.error (String.intercalate "\n" ts)

/-- A spy sparse-embedding model reporting the exact texts submitted. -/
def embedTextSpySparse : List String → Except String (List SparseEmbedding) :=
  fun ts => Except.error (String.intercalate "\n" ts)

/-- Search oracles whose embedding models report the texts submitted. -/
def spyOracles : SearchOracles :=
  { sparseEmbed := embedTextSpySparse,
    denseEmbed := embedTextSpyDense,
    storeQuery := fun _ => Except.ok [],
    rerank := fun _ _ => Except.ok [] }

/-- Search oracles whose sparse model succeeds so that the run reaches
the dense embedding call, and whose dense model reports the texts
submitted to it. -/
def spyDenseOracles : SearchOracles :=
  { sparseEmbed := fun _ => Except.ok [{ indices := [], values := [] }],
    denseEmbed := embedTextSpyDense,
    storeQuery := fun _ => Except.ok [],
    rerank := fun _ _ => Except.ok [] }

/-- Search oracles with a working store holding one candidate and a
reranker that always fails. -/
def c4Oracles : SearchOracles :=
  { sparseEmbed := fun _ => Except.ok [{ indices := [], values := [] }],
    denseEmbed := fun _ => Except.ok [[0.0]],
    storeQuery := fun _ =>
      Except.ok [{ payload := [("chunk_content", PayloadValue.str "some doc")] }],
    rerank := fun _ _ => Except.error "reranker failed" }

/-- Search oracles over an empty chunk collection whose reranker fails on
every call (including the empty candidate list). -/
def c6FailOracles : SearchOracles :=
  { sparseEmbed := fun _ => Except.ok [{ indices := [], values := [] }],
    denseEmbed := fun _ => Except.ok [[0.0]],
    storeQuery := fun _ => Except.ok [],
    rerank := fun _ _ => Except.error "reranker unavailable" }

/-- Search oracles over an empty chunk collection with a well-behaved
reranker (on an empty candidate list it returns an empty ranking). -/
def c6OkOracles : SearchOracles :=
  { sparseEmbed := fun _ => Except.ok [{ indices := [], values := [] }],
    denseEmbed := fun _ => Except.ok [[0.0]],
    storeQuery := fun _ => Except.ok [],
    rerank := fun _ docs =>
      Except.ok (docs.map (fun d => { index := 0, document := some d,
                                      score := 0.5 })) }

/-- Search oracles over an empty chunk collection, for the top-K bound. -/
def c9Oracles : SearchOracles :=
  { sparseEmbed := fun _ => Except.ok [{ indices := [], values := [] }],
    denseEmbed := fun _ => Except.ok [[0.0]],
    storeQuery := fun _ => Except.ok [],
    rerank := fun _ docs =>
      Except.ok (docs.map (fun d => { index := 0, document := some d,
                                      score := 0.5 })) }

/-- Ingestion oracles whose dense embedding model is unavailable (the
batch call returns `Err`) while everything else works. -/
def c2Oracles : IngestOracles :=
  { metaUpsert := fun _ => Except.ok (),
    denseEmbed := fun _ => Except.error "embedding model unavailable",
    sparseEmbed := fun ts =>
      Except.ok (ts.map (fun _ => { indices := [], values := [] })) }

/-- First file of the failing ingestion run: converts fine. -/
def c2Job1 : FileJob :=
  { path := "/data/a.pdf", name := "a.pdf", size := 2048, mtime := 100,
    conversion := Except.ok "alpha doc" }

/-- Second file of the failing ingestion run: also converts fine, and
should be processed after the first per the spec. -/
def c2Job2 : FileJob :=
  { path := "/data/b.pdf", name := "b.pdf", size := 2048, mtime := 100,
    conversion := Except.ok "beta doc" }

/-- The `files` collection at the moment the run dies: only the first
file's metadata record. -/
def c2FilesAfter : List (String × FileMetadata) :=
  [(md5Stub "/data/a.pdf",
    { file_path := "/data/a.pdf", file_name := "a.pdf", file_size := 2048,
      modified_time := 100, content_hash := md5Stub "alpha doc",
      markdown_content := some "alpha doc" })]

/-- The chunk record `c1StoredChunks` holds, spelled out. -/
def c1ChunkExpected : ChunkRecord :=
  { dense := [0.5], sparse := { indices := [1], values := [0.5] },
    file_id := md5Stub c1FileRecord.file_path, chunk_index := 3,
    chunk_content := "hello world" }

/-! ## Helper lemmas -/

/-- Any successful `hybrid_search` produced its list by mapping the first
ten reranker results to `SearchResult`s with empty file fields. -/
lemma hybrid_search_ok_shape (o : SearchOracles) (q : String)
    (rs : List SearchResult) (h : hybrid_search o q = Except.ok rs) :
    ∃ docs rr, o.rerank q docs = Except.ok rr ∧
      rs = (rr.take 10).map (fun r =>
        { file_path := "", file_name := "",
          chunk_content := r.document.getD "", chunk_index := 0,
          similarity_score := r.score }) := by
  unfold hybrid_search at h
  repeat' split at h
  all_goals try exact Except.noConfusion h
  dsimp only at h
  split at h
  · exact Except.noConfusion h
  rename_i rr heq
  exact ⟨_, rr, heq, (Except.ok.inj h).symm⟩

/-- Replacing the points of a given key leaves the key count unchanged. -/
lemma countKey_map_replace {α : Type} (ps : List (String × α)) (k : String)
    (v : α) :
    countKey k (ps.map (fun p => if p.fst = k then (k, v) else p)) =
      countKey k ps := by
  induction ps with
  | nil => rfl
  | cons p ps ih =>
    by_cases h : p.fst = k
    · simpa [countKey, List.filter, h] using ih
    · simpa [countKey, List.filter, h] using ih

/-- Replacing the points of a present key keeps it present. -/
lemma any_map_replace {α : Type} (ps : List (String × α)) (k : String) (v : α) :
    ps.any (fun p => p.fst = k) = true →
    ((ps.map (fun p => if p.fst = k then (k, v) else p)).any
      (fun p => p.fst = k)) = true := by
  induction ps with
  | nil => intro h; simp at h
  | cons p ps ih =>
    intro h
    by_cases hp : p.fst = k
    · simp [hp]
    · have h2 : ps.any (fun p => p.fst = k) = true := by
        simpa [List.any_cons, hp] using h
      simp [List.map, List.any_cons, hp, ih h2]

/-- After replacing the points of a present key, looking the key up finds
the replacement. -/
lemma find?_map_replace {α : Type} (ps : List (String × α)) (k : String)
    (v : α) :
    ps.any (fun p => p.fst = k) = true →
    (ps.map (fun p => if p.fst = k then (k, v) else p)).find?
      (fun p => p.fst = k) = some (k, v) := by
  induction ps with
  | nil => intro h; simp at h
  | cons p ps ih =>
    intro h
    by_cases hp : p.fst = k
    · simp [List.find?, hp]
    · have h2 : ps.any (fun p => p.fst = k) = true := by
        simpa [List.any_cons, hp] using h
      simpa [List.map, List.find?, hp] using ih h2

/-- An upsert leaves its key present. -/
lemma any_upsertPoint {α : Type} (ps : List (String × α)) (k : String) (v : α) :
    (upsertPoint ps k v).any (fun p => p.fst = k) = true := by
  unfold upsertPoint
  by_cases h : ps.any (fun p => p.fst = k)
  · rw [if_pos h]
    exact any_map_replace ps k v h
  · rw [if_neg h]
    simp

/-- After an upsert, looking the key up finds the upserted value. -/
lemma lookupKey_upsertPoint {α : Type} (ps : List (String × α)) (k : String)
    (v : α) :
    lookupKey k (upsertPoint ps k v) = some v := by
  unfold upsertPoint lookupKey
  by_cases h : ps.any (fun p => p.fst = k)
  · rw [if_pos h, find?_map_replace ps k v h]
    rfl
  · rw [if_neg h]
    have hnone : ps.find? (fun p => decide (p.fst = k)) = none := by
      rw [List.find?_eq_none]
      intro p hp
      simp only [List.any_eq_true, not_exists, not_and] at h
      simpa using h p hp
    rw [List.find?_append, hnone]
    simp [List.find?]

lemma nonWS_append (l1 l2 : List Char) : nonWS (l1 ++ l2) = nonWS l1 ++ nonWS l2 :=
  List.filter_append _ _

lemma nonWS_cons_ws {c : Char} (h : isRustWS c = true) (l : List Char) :
    nonWS (c :: l) = nonWS l := by
  simp [nonWS, List.filter_cons, h]

lemma nonWS_cons_nws {c : Char} (h : isRustWS c = false) (l : List Char) :
    nonWS (c :: l) = c :: nonWS l := by
  simp [nonWS, List.filter_cons, h]

lemma nonWS_eq_self {l : List Char} (h : ∀ c ∈ l, isRustWS c = false) :
    nonWS l = l := by
  induction l with
  | nil => rfl
  | cons c cs ih =>
    rw [nonWS_cons_nws (h c (List.mem_cons_self c cs)), ih]
    intro x hx
    exact h x (List.mem_cons_of_mem c hx)

lemma nonWS_joinSp (ls : List (List Char)) :
    nonWS (joinSp ls) = (ls.map nonWS).flatten := by
  induction ls with
  | nil => rfl
  | cons w ws ih =>
    cases ws with
    | nil => simp [joinSp, List.map, List.flatten]
    | cons w2 ws2 =>
      show nonWS (w ++ ' ' :: joinSp (w2 :: ws2)) = _
      rw [nonWS_append, nonWS_cons_ws (by decide)]
      rw [ih]
      simp [List.map, List.flatten]

lemma flatten_splitOnCharCore (sep : Char) (l acc : List Char) :
    (splitOnCharCore sep l acc).flatten =
      acc.reverse ++ l.filter (fun c => !(c = sep)) := by
  induction l generalizing acc with
  | nil => simp [splitOnCharCore]
  | cons c cs ih =>
    by_cases h : c = sep
    · simp [splitOnCharCore, h, ih]
    · simp [splitOnCharCore, h, ih, List.filter_cons]

lemma nonWS_filter_not_nl (l : List Char) :
    nonWS (l.filter (fun c => !(c = '\n'))) = nonWS l := by
  unfold nonWS
  rw [List.filter_filter]
  apply List.filter_congr
  intro c _
  by_cases h : c = '\n'
  · subst h; decide
  · simp [h]

lemma nonWS_dropWhile (l : List Char) :
    nonWS (l.dropWhile isRustWS) = nonWS l := by
  induction l with
  | nil => rfl
  | cons c cs ih =>
    by_cases h : isRustWS c
    · rw [List.dropWhile_cons_of_pos h, ih, nonWS_cons_ws h]
    · rw [List.dropWhile_cons_of_neg h]

lemma nonWS_reverse (l : List Char) : nonWS l.reverse = (nonWS l).reverse := by
  unfold nonWS
  exact List.filter_reverse _ _

lemma nonWS_trimWS (l : List Char) : nonWS (trimWS l) = nonWS l := by
  unfold trimWS
  rw [nonWS_reverse, nonWS_dropWhile, nonWS_reverse, List.reverse_reverse,
    nonWS_dropWhile]

lemma splitWSCore_ws_nil {c : Char} (cs acc : List Char)
    (h : isRustWS c = true) (ha : acc.isEmpty = true) :
    splitWSCore (c :: cs) acc = splitWSCore cs [] := by
  simp [splitWSCore, h, ha]

lemma splitWSCore_ws_flush {c : Char} (cs acc : List Char)
    (h : isRustWS c = true) (ha : acc.isEmpty = false) :
    splitWSCore (c :: cs) acc = acc.reverse :: splitWSCore cs [] := by
  simp [splitWSCore, h, ha]

lemma splitWSCore_nws {c : Char} (cs acc : List Char)
    (h : isRustWS c = false) :
    splitWSCore (c :: cs) acc = splitWSCore cs (c :: acc) := by
  simp [splitWSCore, h]

lemma flatten_splitWSCore (l : List Char) :
    ∀ acc : List Char, (∀ c ∈ acc, isRustWS c = false) →
    (splitWSCore l acc).flatten = acc.reverse ++ nonWS l := by
  induction l with
  | nil =>
    intro acc _
    by_cases h : acc.isEmpty
    · simp [splitWSCore, h, List.isEmpty_iff.mp h, nonWS]
    · simp [splitWSCore, h, nonWS]
  | cons c cs ih =>
    intro acc hacc
    by_cases h : isRustWS c
    · by_cases ha : acc.isEmpty
      · rw [splitWSCore_ws_nil cs acc h ha, ih [] (by intro x hx; cases hx),
          nonWS_cons_ws h]
        simp [List.isEmpty_iff.mp ha]
      · rw [splitWSCore_ws_flush cs acc h (by simpa using ha),
          List.flatten_cons, ih [] (by intro x hx; cases hx), nonWS_cons_ws h]
        simp
    · have hb : isRustWS c = false := by simpa using h
      rw [splitWSCore_nws cs acc hb, ih (c :: acc) ?hc, nonWS_cons_nws hb]
      · simp
      case hc =>
        intro x hx
        rcases List.mem_cons.mp hx with rfl | hx
        · exact hb
        · exact hacc x hx

lemma flatten_splitWS (l : List Char) : (splitWS l).flatten = nonWS l := by
  unfold splitWS
  rw [flatten_splitWSCore l [] (by intro x hx; cases hx)]
  rfl

lemma splitWSCore_chars (l : List Char) :
    ∀ acc : List Char, (∀ c ∈ acc, isRustWS c = false) →
    ∀ w ∈ splitWSCore l acc, ∀ c ∈ w, isRustWS c = false := by
  induction l with
  | nil =>
    intro acc hacc w hw c hc
    by_cases h : acc.isEmpty
    · simp [splitWSCore, h] at hw
    · simp [splitWSCore, h] at hw
      subst hw
      exact hacc c (by simpa using hc)
  | cons x xs ih =>
    intro acc hacc w hw c hc
    by_cases h : isRustWS x
    · by_cases ha : acc.isEmpty
      · rw [splitWSCore_ws_nil xs acc h ha] at hw
        exact ih [] (by intro y hy; cases hy) w hw c hc
      · rw [splitWSCore_ws_flush xs acc h (by simpa using ha)] at hw
        rcases List.mem_cons.mp hw with rfl | hw
        · exact hacc c (by simpa using hc)
        · exact ih [] (by intro y hy; cases hy) w hw c hc
    · have hb : isRustWS x = false := by simpa using h
      rw [splitWSCore_nws xs acc hb] at hw
      refine ih (x :: acc) ?_ w hw c hc
      intro y hy
      rcases List.mem_cons.mp hy with rfl | hy
      · exact hb
      · exact hacc y hy

lemma splitWS_chars (l : List Char) :
    ∀ w ∈ splitWS l, ∀ c ∈ w, isRustWS c = false :=
  splitWSCore_chars l [] (by intro x hx; cases hx)

lemma nonWS_flatten (ls : List (List Char)) :
    nonWS ls.flatten = (ls.map nonWS).flatten := by
  induction ls with
  | nil => rfl
  | cons w ws ih => simp [List.flatten_cons, nonWS_append, ih]

lemma flatten_map_nonWS_filter_nonempty (ls : List (List Char)) :
    ((ls.filter (fun l => !l.isEmpty)).map nonWS).flatten =
      (ls.map nonWS).flatten := by
  induction ls with
  | nil => rfl
  | cons w ws ih =>
    by_cases h : w.isEmpty
    · rw [List.filter_cons_of_neg (by simp [h])]
      rw [List.isEmpty_iff.mp h] at *
      simpa [nonWS] using ih
    · rw [List.filter_cons_of_pos (by simp [h])]
      simp [List.map, List.flatten_cons, ih]

lemma nonWS_clean (t : List Char) : nonWS (clean_whitespace t) = nonWS t := by
  unfold clean_whitespace
  rw [nonWS_joinSp]
  have h1 : ∀ u : List Char, (splitWS u).map nonWS = (splitWS u).map id :=
    fun u => List.map_congr_left
      (fun w hw => nonWS_eq_self (splitWS_chars u w hw))
  rw [h1, List.map_id, flatten_splitWS, nonWS_joinSp,
    flatten_map_nonWS_filter_nonempty, List.map_map]
  have h2 : ((splitOnChar '
' t).map (nonWS ∘ trimWS)) =
      ((splitOnChar '
' t).map nonWS) :=
    List.map_congr_left (fun l _ => nonWS_trimWS l)
  rw [h2, ← nonWS_flatten]
  unfold splitOnChar
  rw [flatten_splitOnCharCore, List.reverse_nil, List.nil_append,
    nonWS_filter_not_nl]

lemma flatten_splitEveryCore (n : Nat) (l : List Char) :
    ∀ (acc : List Char) (k : Nat),
    (splitEveryCore n l acc k).flatten = acc.reverse ++ l := by
  induction l with
  | nil =>
    intro acc k
    by_cases h : acc.isEmpty
    · simp [splitEveryCore, h, List.isEmpty_iff.mp h]
    · simp [splitEveryCore, h]
  | cons c cs ih =>
    intro acc k
    cases k with
    | zero => simp [splitEveryCore, ih]
    | succ k => simp [splitEveryCore, ih]

lemma flatten_splitEvery (n : Nat) (l : List Char) :
    (splitEvery n l).flatten = l := by
  unfold splitEvery
  rw [flatten_splitEveryCore]
  rfl

lemma splitEveryCore_chars (n : Nat) (l : List Char) :
    ∀ (acc : List Char) (k : Nat),
    ∀ w ∈ splitEveryCore n l acc k, ∀ c ∈ w, c ∈ acc ∨ c ∈ l := by
  induction l with
  | nil =>
    intro acc k w hw c hc
    by_cases h : acc.isEmpty
    · simp [splitEveryCore, h] at hw
    · simp [splitEveryCore, h] at hw
      subst hw
      exact Or.inl (by simpa using hc)
  | cons x xs ih =>
    intro acc k w hw c hc
    cases k with
    | zero =>
      simp only [splitEveryCore] at hw
      rcases List.mem_cons.mp hw with rfl | hw
      · exact Or.inl (by simpa using hc)
      · rcases ih [x] (n - 1) w hw c hc with h | h
        · exact Or.inr (List.mem_cons.mpr (Or.inl (by simpa using h)))
        · exact Or.inr (List.mem_cons.mpr (Or.inr h))
    | succ k =>
      simp only [splitEveryCore] at hw
      rcases ih (x :: acc) k w hw c hc with h | h
      · rcases List.mem_cons.mp h with rfl | h
        · exact Or.inr (List.mem_cons.mpr (Or.inl rfl))
        · exact Or.inl h
      · exact Or.inr (List.mem_cons.mpr (Or.inr h))

lemma splitEvery_chars (n : Nat) (l : List Char) :
    ∀ w ∈ splitEvery n l, ∀ c ∈ w, c ∈ l := by
  intro w hw c hc
  rcases splitEveryCore_chars n l [] n w hw c hc with h | h
  · cases h
  · exact h

lemma greedy_step_fits_empty {n : Nat} {w cur : List Char} {ws : List (List Char)}
    (h1 : cur.isEmpty = true) (h2 : w.length ≤ n) :
    greedyChunks n (w :: ws) cur = greedyChunks n ws w := by
  simp [greedyChunks, h1, h2]

lemma greedy_step_big_empty {n : Nat} {w cur : List Char} {ws : List (List Char)}
    (h1 : cur.isEmpty = true) (h2 : ¬w.length ≤ n) :
    greedyChunks n (w :: ws) cur = splitEvery n w ++ greedyChunks n ws [] := by
  simp [greedyChunks, h1, h2]

lemma greedy_step_pack {n : Nat} {w cur : List Char} {ws : List (List Char)}
    (h1 : cur.isEmpty = false) (h2 : cur.length + 1 + w.length ≤ n) :
    greedyChunks n (w :: ws) cur = greedyChunks n ws (cur ++ ' ' :: w) := by
  simp [greedyChunks, h1, h2]

lemma greedy_step_flush_fits {n : Nat} {w cur : List Char} {ws : List (List Char)}
    (h1 : cur.isEmpty = false) (h2 : ¬cur.length + 1 + w.length ≤ n)
    (h3 : w.length ≤ n) :
    greedyChunks n (w :: ws) cur = cur :: greedyChunks n ws w := by
  simp [greedyChunks, h1, h2, h3]

lemma greedy_step_flush_big {n : Nat} {w cur : List Char} {ws : List (List Char)}
    (h1 : cur.isEmpty = false) (h2 : ¬cur.length + 1 + w.length ≤ n)
    (h3 : ¬w.length ≤ n) :
    greedyChunks n (w :: ws) cur =
      cur :: (splitEvery n w ++ greedyChunks n ws []) := by
  simp [greedyChunks, h1, h2, h3]

lemma nonWS_flatten_greedy (n : Nat) :
    ∀ (ws : List (List Char)) (cur : List Char),
    (∀ w ∈ ws, ∀ c ∈ w, isRustWS c = false) →
    nonWS (greedyChunks n ws cur).flatten = nonWS cur ++ ws.flatten := by
  intro ws
  induction ws with
  | nil =>
    intro cur _
    by_cases h : cur.isEmpty
    · simp [greedyChunks, h, List.isEmpty_iff.mp h, nonWS]
    · simp [greedyChunks, h, nonWS]
  | cons w ws ih =>
    intro cur hws
    have hw : ∀ c ∈ w, isRustWS c = false :=
      hws w (List.mem_cons_self w ws)
    have hws2 : ∀ x ∈ ws, ∀ c ∈ x, isRustWS c = false :=
      fun x hx => hws x (List.mem_cons_of_mem w hx)
    by_cases hc : cur.isEmpty
    · have hcur : cur = [] := List.isEmpty_iff.mp hc
      by_cases hlen : w.length ≤ n
      · rw [greedy_step_fits_empty hc hlen, ih w hws2, nonWS_eq_self hw, hcur]
        simp [nonWS]
      · rw [greedy_step_big_empty hc hlen, List.flatten_append, nonWS_append,
          flatten_splitEvery, ih [] hws2, nonWS_eq_self hw, hcur]
        simp [nonWS]
    · have hcb : cur.isEmpty = false := by simpa using hc
      by_cases hfit : cur.length + 1 + w.length ≤ n
      · rw [greedy_step_pack hcb hfit, ih (cur ++ ' ' :: w) hws2,
          nonWS_append, nonWS_cons_ws (by decide), nonWS_eq_self hw]
        simp [List.flatten_cons]
      · by_cases hlen : w.length ≤ n
        · rw [greedy_step_flush_fits hcb hfit hlen, List.flatten_cons,
            nonWS_append, ih w hws2, nonWS_eq_self hw]
          simp [List.flatten_cons]
        · rw [greedy_step_flush_big hcb hfit hlen, List.flatten_cons,
            List.flatten_append, nonWS_append, nonWS_append,
            flatten_splitEvery, ih [] hws2, nonWS_eq_self hw]
          simp [List.flatten_cons, nonWS]

lemma greedy_chars (n : Nat) :
    ∀ (ws : List (List Char)) (cur : List Char),
    (∀ w ∈ ws, ∀ c ∈ w, isRustWS c = false) →
    (∀ c ∈ cur, c = ' ' ∨ isRustWS c = false) →
    ∀ ch ∈ greedyChunks n ws cur, ∀ c ∈ ch, c = ' ' ∨ isRustWS c = false := by
  intro ws
  induction ws with
  | nil =>
    intro cur _ hcur ch hch c hc
    by_cases h : cur.isEmpty
    · simp [greedyChunks, h] at hch
    · simp [greedyChunks, h] at hch
      subst hch
      exact hcur c hc
  | cons w ws ih =>
    intro cur hws hcur ch hch c hc
    have hw : ∀ c ∈ w, isRustWS c = false :=
      hws w (List.mem_cons_self w ws)
    have hws2 : ∀ x ∈ ws, ∀ c ∈ x, isRustWS c = false :=
      fun x hx => hws x (List.mem_cons_of_mem w hx)
    by_cases hcb : cur.isEmpty
    · by_cases hlen : w.length ≤ n
      · rw [greedy_step_fits_empty hcb hlen] at hch
        exact ih w hws2 (fun x hx => Or.inr (hw x hx)) ch hch c hc
      · rw [greedy_step_big_empty hcb hlen] at hch
        rcases List.mem_append.mp hch with hch | hch
        · exact Or.inr (hw c (splitEvery_chars n w ch hch c hc))
        · exact ih [] hws2 (by intro x hx; cases hx) ch hch c hc
    · have hcb2 : cur.isEmpty = false := by simpa using hcb
      by_cases hfit : cur.length + 1 + w.length ≤ n
      · rw [greedy_step_pack hcb2 hfit] at hch
        refine ih (cur ++ ' ' :: w) hws2 ?_ ch hch c hc
        intro x hx
        rcases List.mem_append.mp hx with hx | hx
        · exact hcur x hx
        · rcases List.mem_cons.mp hx with rfl | hx
          · exact Or.inl rfl
          · exact Or.inr (hw x hx)
      · by_cases hlen : w.length ≤ n
        · rw [greedy_step_flush_fits hcb2 hfit hlen] at hch
          rcases List.mem_cons.mp hch with rfl | hch
          · exact hcur c hc
          · exact ih w hws2 (fun x hx => Or.inr (hw x hx)) ch hch c hc
        · rw [greedy_step_flush_big hcb2 hfit hlen] at hch
          rcases List.mem_cons.mp hch with rfl | hch
          · exact hcur c hc
          · rcases List.mem_append.mp hch with hch | hch
            · exact Or.inr (hw c (splitEvery_chars n w ch hch c hc))
            · exact ih [] hws2 (by intro x hx; cases hx) ch hch c hc

lemma joinSp_chars (ls : List (List Char)) :
    ∀ c ∈ joinSp ls, c = ' ' ∨ ∃ w ∈ ls, c ∈ w := by
  induction ls with
  | nil => intro c hc; cases hc
  | cons w ws ih =>
    cases ws with
    | nil =>
      intro c hc
      exact Or.inr ⟨w, List.mem_cons_self w [], hc⟩
    | cons w2 ws2 =>
      intro c hc
      rcases List.mem_append.mp hc with hc | hc
      · exact Or.inr ⟨w, List.mem_cons_self _ _, hc⟩
      · rcases List.mem_cons.mp hc with rfl | hc
        · exact Or.inl rfl
        · rcases ih c hc with h | ⟨x, hx, hcx⟩
          · exact Or.inl h
          · exact Or.inr ⟨x, List.mem_cons_of_mem w hx, hcx⟩

/-! ## The claims -/

/-- C1, counterexample.  Over a store holding one chunk that originates
from the file `/data/report.pdf` (stored by `store_embeddings` at chunk
position 3) and well-behaved services, `hybrid_search` succeeds but the
returned `SearchResult` carries an empty `file_path`, an empty
`file_name`, and `chunk_index` 0 — not the originating file's path/name
and not the chunk's stored position 3.  Only the chunk text and the
reranker score are carried. -/
theorem c1_counterexample :
    hybrid_search c1Oracles "query" = Except.ok [c1Returned]
    ∧ c1StoredChunks = [c1ChunkExpected]
    ∧ c1Returned.file_path ≠ c1FileRecord.file_path
    ∧ c1Returned.file_name ≠ c1FileRecord.file_name
    ∧ c1Returned.chunk_index ≠ 3 := by
  refine ⟨rfl, rfl, ?_, ?_, ?_⟩ <;> decide

/-- C1, amended.  Every `SearchResult` a successful `hybrid_search`
returns carries the chunk text and the final relevance score from the
reranker, but its `file_path` and `file_name` are always the empty string
and its `chunk_index` is always 0; nothing is denormalized from the
stored `FileMetadata`. -/
theorem c1_amended (o : SearchOracles) (q : String) (rs : List SearchResult)
    (h : hybrid_search o q = Except.ok rs) :
    ∀ r ∈ rs, r.file_path = "" ∧ r.file_name = "" ∧ r.chunk_index = 0 := by
  obtain ⟨docs, rr, hrr, hrs⟩ := hybrid_search_ok_shape o q rs h
  subst hrs
  intro r hr
  obtain ⟨x, hx, hxr⟩ := List.mem_map.mp hr
  exact hxr ▸ ⟨rfl, rfl, rfl⟩

/-- C1, witness for the amended theorem at a concrete successful run. -/
theorem c1_amended_witness :
    c1Returned.file_path = "" ∧ c1Returned.file_name = ""
    ∧ c1Returned.chunk_index = 0 :=
  c1_amended c1Oracles "query" [c1Returned] rfl c1Returned
    (List.mem_singleton.mpr rfl)

/-- C3, counterexample.  With embedding models that report the texts
submitted to them, `hybrid_search` for the query `"hello"` submits the
text `"hello"` itself: the query-side text carries no retrieval-role
marker at all (in particular neither a `"query: "` nor a `"passage: "`
tag). -/
theorem c3_counterexample :
    hybrid_search spyOracles "hello" = Except.error "hello"
    ∧ ("hello" : String) ≠ "query: hello"
    ∧ ("hello" : String) ≠ "passage: hello" :=
  ⟨rfl, by decide, by decide⟩

/-- C3, amended.  Passage-side texts are prefixed with `"passage: "` by
both `generate_dense_embeddings` and `generate_sparse_embeddings` at
ingestion, but the query at search time is submitted to both embedding
models verbatim, with no marker: the two sides differ only in that the
query side is unprefixed.  The third conjunct shows the sparse model
(called first) receives exactly the raw query; the fourth, over oracles
whose sparse model succeeds, shows the dense model receives exactly the
raw query as well. -/
theorem c3_amended :
    (∀ chunks : List String,
      generate_dense_embeddings embedTextSpyDense chunks =
        Except.error (String.intercalate "\n"
          (chunks.map (fun c => "passage: " ++ c))))
    ∧ (∀ chunks : List String,
      generate_sparse_embeddings embedTextSpySparse chunks =
        Except.error (String.intercalate "\n"
          (chunks.map (fun c => "passage: " ++ c))))
    ∧ (∀ q : String, hybrid_search spyOracles q = Except.error q)
    ∧ (∀ q : String, hybrid_search spyDenseOracles q = Except.error q) :=
  ⟨fun _ => rfl, fun _ => rfl, fun _ => rfl, fun _ => rfl⟩

/-- C4.  When the reranking call fails for the query, `hybrid_search`
never returns a result list (in particular not a fused-order fallback
list); it returns an error to its caller. -/
theorem c4_theorem (o : SearchOracles) (q msg : String)
    (hr : ∀ docs, o.rerank q docs = Except.error msg) :
    (∀ rs, hybrid_search o q ≠ Except.ok rs)
    ∧ ∃ e, hybrid_search o q = Except.error e := by
  have hnotok : ∀ rs, hybrid_search o q ≠ Except.ok rs := by
    intro rs h
    obtain ⟨docs, rr, hrr, _⟩ := hybrid_search_ok_shape o q rs h
    rw [hr docs] at hrr
    exact Except.noConfusion hrr
  refine ⟨hnotok, ?_⟩
  cases hres : hybrid_search o q with
  | error e => exact ⟨e, rfl⟩
  | ok rs => exact absurd hres (hnotok rs)

/-- C4, witness: a concrete run with a failing reranker and a non-empty
candidate store. -/
theorem c4_witness :
    (∀ rs, hybrid_search c4Oracles "q" ≠ Except.ok rs)
    ∧ ∃ e, hybrid_search c4Oracles "q" = Except.error e :=
  c4_theorem c4Oracles "q" "reranker failed" (fun _ => rfl)

/-- C5, counterexample.  A top-ranked completion whose finish condition
is the truncation condition `"length"` and whose content is the empty
string (`Some("")`, as deserialized from `"content": ""`) is empty
content, yet the response handling of `generate_response` returns
`Ok("")` — exactly the empty-string answer the claim rules out — because
`ai.rs` lines 121-123 test only the presence of `content`, not its
emptiness, and never examine `finish_reason`. -/
theorem c5_counterexample :
    generate_response_handle
      { choices := [{ message := { role := "assistant", content := some "" },
                      finish_reason := "length" }],
        usage := none } = Except.ok "" := rfl

/-- C5, amended.  The response handling of `generate_response` branches
on the presence of the top-ranked completion's content, not on its
emptiness or the finish condition: when the content is absent (the Rust
`Option<String>`'s `None`, a JSON `null`) it returns the distinct
truncation error naming the finish reason — never an empty-string
answer — and when the content is present it returns that content as the
answer, even when it is the empty string under a truncation finish
condition. -/
theorem c5_theorem :
    (∀ (role finish_reason : String) (rest : List Choice)
      (usage : Option Usage),
      generate_response_handle
        { choices := { message := { role := role, content := none },
                       finish_reason := finish_reason } :: rest,
          usage := usage } =
        Except.error ("Response was truncated (finish_reason: " ++
          finish_reason ++
          "). Try increasing max_tokens or reducing the input size."))
    ∧ (∀ (role finish_reason content : String) (rest : List Choice)
      (usage : Option Usage),
      generate_response_handle
        { choices := { message := { role := role, content := some content },
                       finish_reason := finish_reason } :: rest,
          usage := usage } = Except.ok content) :=
  ⟨fun _ _ _ _ => rfl, fun _ _ _ _ _ => rfl⟩

/-- C6, counterexample.  Over an empty chunk collection the reranking step
is NOT skipped: `hybrid_search` invokes the reranker on the empty
candidate list, so with a failing reranker the query over an empty
collection returns an error instead of an empty result list. -/
theorem c6_counterexample :
    hybrid_search c6FailOracles "any query" =
      Except.error "reranker unavailable" := rfl

/-- C6, amended.  Over an empty chunk collection (the store returns no
fused candidates) the extracted candidate list is empty and the reranker
is invoked on that empty list; provided that call succeeds with an empty
ranking, `hybrid_search` returns an empty `SearchResult` list without
error. -/
theorem c6_amended (o : SearchOracles) (q : String) (sq : SparseEmbedding)
    (dq : List Float)
    (hs : o.sparseEmbed [q] = Except.ok [sq])
    (hd : o.denseEmbed [q] = Except.ok [dq])
    (hstore : o.storeQuery (queryPointsRequest sq dq) = Except.ok [])
    (hrr : o.rerank q [] = Except.ok []) :
    hybrid_search o q = Except.ok [] := by
  unfold hybrid_search
  rw [hs, hd]
  dsimp only [List.head?]
  rw [hstore]
  dsimp only [List.filterMap]
  rw [hrr]
  rfl

/-- C6, witness for the amended theorem at concrete well-behaved
oracles over an empty collection. -/
theorem c6_amended_witness : hybrid_search c6OkOracles "q" = Except.ok [] :=
  c6_amended c6OkOracles "q" { indices := [], values := [] } [0.0]
    rfl rfl rfl rfl

/-- C2, code bug.  The spec's propagation policy says an embedding-batch
failure aborts only the current file and the run continues with the next
file; the code instead calls `.unwrap()` on the embedding `Result`
(`src/main.rs` lines 508/510), panicking and aborting the whole run.  On
a concrete two-file run whose first file's dense embedding call fails,
the loop dies with a panic: the second file is never processed (its
metadata never stored) — though, as the claim also states, no chunk
records exist for the failed file. -/
theorem c2_code_bug :
    processFiles md5Stub c2Oracles [c2Job1, c2Job2]
        { files := [], chunks := [] } =
      RunResult.panicked "embedding model unavailable"
        { files := c2FilesAfter, chunks := [] }
    ∧ countKey (md5Stub c2Job2.path) c2FilesAfter = 0 :=
  ⟨rfl, by decide⟩

/-- C8.  The file identifier `store_file_metadata` returns is
`md5hex file_path` — a pure function of the path alone, independent of
the collection state and every other argument — so ingesting the same
path twice yields the same identifier both times, and the second
ingestion overwrites the metadata record under that identifier (the key
count does not grow and the lookup yields the second record).  This
holds for every instantiation of the md5 digest function. -/
theorem c8_theorem (md5hex : String → String)
    (files : List (String × FileMetadata)) (p n1 n2 : String)
    (s1 s2 t1 t2 : Nat) (h1 h2 : String) (m1 m2 : Option String) :
    (store_file_metadata md5hex files p n1 s1 t1 h1 m1).fst = md5hex p
    ∧ (store_file_metadata md5hex
        (store_file_metadata md5hex files p n1 s1 t1 h1 m1).snd
        p n2 s2 t2 h2 m2).fst = md5hex p
    ∧ countKey (md5hex p)
        (store_file_metadata md5hex
          (store_file_metadata md5hex files p n1 s1 t1 h1 m1).snd
          p n2 s2 t2 h2 m2).snd
      = countKey (md5hex p)
          (store_file_metadata md5hex files p n1 s1 t1 h1 m1).snd
    ∧ lookupKey (md5hex p)
        (store_file_metadata md5hex
          (store_file_metadata md5hex files p n1 s1 t1 h1 m1).snd
          p n2 s2 t2 h2 m2).snd
      = some { file_path := p, file_name := n2, file_size := s2,
               modified_time := t2, content_hash := h2,
               markdown_content := m2 } := by
  refine ⟨rfl, rfl, ?_, ?_⟩
  · show countKey (md5hex p)
      (upsertPoint (upsertPoint files (md5hex p) _) (md5hex p) _) = _
    rw [upsertPoint, if_pos (any_upsertPoint files (md5hex p) _)]
    exact countKey_map_replace _ _ _
  · exact lookupKey_upsertPoint _ _ _

/-- C9.  The fused query `hybrid_search` sends requests exactly 50 fused
candidates (25 from each prefetch), and any successful search returns at
most 10 `SearchResult`s. -/
theorem c9_theorem (o : SearchOracles) (q : String) :
    (∀ sq dq, (queryPointsRequest sq dq).limit = 50
      ∧ (queryPointsRequest sq dq).sparseLimit = 25
      ∧ (queryPointsRequest sq dq).denseLimit = 25)
    ∧ ∀ rs, hybrid_search o q = Except.ok rs → rs.length ≤ 10 := by
  refine ⟨fun _ _ => ⟨rfl, rfl, rfl⟩, ?_⟩
  intro rs h
  obtain ⟨docs, rr, hrr, hrs⟩ := hybrid_search_ok_shape o q rs h
  subst hrs
  rw [List.length_map]
  exact List.length_take_le 10 rr

/-- C9, witness at a concrete successful run. -/
theorem c9_witness : ([] : List SearchResult).length ≤ 10 :=
  (c9_theorem c9Oracles "q").2 [] rfl

theorem c7_theorem (chunk_size : Nat) (_hn : 1 ≤ chunk_size) (t : List Char) :
    nonWS ((chunk_markdown_content t chunk_size).flatten) = nonWS t := by
  unfold chunk_markdown_content
  rw [nonWS_flatten_greedy chunk_size (splitWS (clean_whitespace t)) []
    (splitWS_chars (clean_whitespace t)), flatten_splitWS, nonWS_clean]
  rfl

theorem c7_witness :
    1 ≤ 3 ∧
      nonWS ((chunk_markdown_content ("ab cd".data) 3).flatten) =
        nonWS ("ab cd".data) :=
  ⟨by decide, c7_theorem 3 (by decide) ("ab cd".data)⟩

theorem c10_theorem (t : List Char) (chunk_size : Nat) :
    (∀ ch ∈ chunk_markdown_content t chunk_size, '\n' ∉ ch)
    ∧ '\n' ∉ clean_whitespace t := by
  constructor
  · intro ch hch hmem
    have hor := greedy_chars chunk_size (splitWS (clean_whitespace t)) []
      (splitWS_chars (clean_whitespace t)) (by intro c hc; cases hc)
      ch hch '\n' hmem
    rcases hor with h | h
    · exact absurd h (by decide)
    · exact absurd h (by decide)
  · intro hmem
    unfold clean_whitespace at hmem
    rcases joinSp_chars _ '\n' hmem with h | ⟨w, hw, hcw⟩
    · exact absurd h (by decide)
    · exact absurd (splitWS_chars _ w hw '\n' hcw) (by decide)

theorem c10_witness :
    ('\n' ∉ ("a b".data)) ∧ '\n' ∉ clean_whitespace ("a\nb".data) :=
  ⟨(c10_theorem ("a\nb".data) 10).1 ("a b".data) (by decide),
   (c10_theorem ("a\nb".data) 10).2⟩

end SemanticSearch
